import Mathlib

/-!
Verification development for the multi-tenant file-based storage engine.

Each Python component relevant to the frozen claims is shallowly embedded as
executable Lean definitions, translated from the source files:
  * `src/tenant-node/index.py`          — index entries and file-list pruning
  * `src/cbo-engine/query_optimizer.py` — cost-based plan selection and fallback
  * `src/metadata-catalog/compaction_manager.py` — file compaction and cleanup
  * `src/tenant-node/data_source.py`    — write path and aggregation combination
  * `src/tenant-node/wal.py`            — per-source WAL status records
  * `src/engine/storage/wal_manager.py` — buffered engine WAL with flush threshold
  * `src/operation-node/auto_scaler.py` — worker-pool auto-scaling
  * `src/engine/storage/migrate.py`     — hot-to-cold migration

Machine floats in the source are modelled as rationals; the properties proved
here only depend on the ordered-field structure of the numeric values.
-/

namespace StorageSystem

/-! ## Values

Python cell values flowing through filters are (in this repository) either
numbers or strings.  A string is modelled as its list of character code
points, compared lexicographically exactly as Python compares `str` values.
Comparing an int against a str raises `TypeError` in Python; the embedding
mirrors this with `Except Unit Bool` results where the source can raise.
Equality between an int and a str is `False` (no error), as in Python. -/

inductive Value where
  | int (n : ℤ)
  | str (s : List ℕ)
deriving DecidableEq, Repr

/-- `a <= b` on Python values: succeeds on same-typed operands, raises
(`.error ()`) on mixed types. -/
def vle : Value → Value → Except Unit Bool
  | .int a, .int b => .ok (decide (a ≤ b))
  | .str a, .str b => .ok (decide (a ≤ b))
  | _, _ => .error ()

/-- `a < b` on Python values, with the same error behaviour as `vle`. -/
def vlt : Value → Value → Except Unit Bool
  | .int a, .int b => .ok (decide (a < b))
  | .str a, .str b => .ok (decide (a < b))
  | _, _ => .error ()


/-! ## Index manager (`src/tenant-node/index.py`)

`IndexEntry` keeps, per (column, file), the min value, max value and — when the
column has few distinct values — the set of distinct values (modelled as a
list; Python set membership and intersection translate to list membership and
intersection).  Python truthiness makes both `None` and the empty set fall
back to the min/max range test, which the embedding reproduces by testing
emptiness explicitly. -/

structure IndexEntry where
  min_value : Value
  max_value : Value
  unique_values : Option (List Value)
deriving DecidableEq, Repr

/-- Python truthiness of `index_entry.unique_values`: `None` and the empty
set are falsy. -/
def IndexEntry.uvTruthy (e : IndexEntry) : Option (List Value) :=
  match e.unique_values with
  | some (v :: vs) => some (v :: vs)
  | _ => none

/-- A query condition as dispatched by `IndexManager._file_matches_condition`:
either a dict with one of the recognised operator keys, a dict with no
recognised key (falls through to the final `return True`), or a bare value
(simple equality). -/
inductive QueryCondition where
  | ceq (v : Value)
  | cgt (v : Value)
  | clt (v : Value)
  | cgte (v : Value)
  | clte (v : Value)
  | cin (vs : List Value)
  | clike (pattern : String)
  | cunknown
  | simple (v : Value)
deriving DecidableEq, Repr

/-- Python chained comparison `a <= v <= b`: evaluates `a <= v` first and
short-circuits, so an error in the second comparison only surfaces when the
first succeeded with `True`. -/
def chainLe (a v b : Value) : Except Unit Bool := do
  let x ← vle a v
  if x then vle v b else pure false

/-- `any(min <= v <= max for v in values)`: short-circuits at the first
`True`; an error raised by an element before any `True` propagates. -/
def anyChainLe (lo hi : Value) : List Value → Except Unit Bool
  | [] => .ok false
  | v :: vs => do
    let b ← chainLe lo v hi
    if b then pure true else anyChainLe lo hi vs

/-- The body of `IndexManager._file_matches_condition` inside its `try`:
the raw condition evaluation, before the `except` handler. -/
def condEval (e : IndexEntry) : QueryCondition → Except Unit Bool
  | .ceq v =>
    match e.uvTruthy with
    | some uv => .ok (decide (v ∈ uv))
    | none => chainLe e.min_value v e.max_value
  | .cgt v => vlt v e.max_value
  | .clt v => vlt e.min_value v
  | .cgte v => vle v e.max_value
  | .clte v => vle e.min_value v
  | .cin vs =>
    match e.uvTruthy with
    | some uv => .ok (decide (∃ v ∈ uv, v ∈ vs))
    | none => anyChainLe e.min_value e.max_value vs
  | .clike _ => .ok true
  | .cunknown => .ok true
  | .simple v =>
    match e.uvTruthy with
    | some uv => .ok (decide (v ∈ uv))
    | none => chainLe e.min_value v e.max_value

/-- `IndexManager._file_matches_condition`: any error during condition
evaluation is caught and the file is included (`return True`). -/
def file_matches_condition (e : IndexEntry) (c : QueryCondition) : Bool :=
  match condEval e c with
  | .ok b => b
  | .error _ => true

/-- The in-memory index store `self.indices`: a dict from column name to a
dict from file path to its `IndexEntry`, modelled as association lists. -/
abbrev Indices := List (String × List (String × IndexEntry))

/-- Association-list lookup, mirroring Python dict lookup (keys are unique
in a dict). -/
def alookup {α : Type} (key : String) : List (String × α) → Option α
  | [] => none
  | (k, v) :: rest => if k = key then some v else alookup key rest

/-- `IndexManager.optimize_file_list`.  The running set `optimized_files`
starts as `set(file_paths)` and, for each filter on an indexed column, is
intersected with the files of that column whose entry matches the condition
— a file that is *not* present in the column dict is therefore dropped.
The final sort by file modification time only reorders the surviving set,
so the embedding returns the survivors in input order. -/
def optimize_file_list (indices : Indices) (file_paths : List String)
    (query_filters : List (String × QueryCondition)) : List String :=
  if query_filters.isEmpty then file_paths
  else
    query_filters.foldl
      (fun optimized (cq : String × QueryCondition) =>
        match alookup cq.1 indices with
        | none => optimized
        | some column_indices =>
          optimized.filter (fun f =>
            match alookup f column_indices with
            | some e => file_matches_condition e cq.2
            | none => false))
      file_paths.dedup

/-! ### File contents and row-level filter semantics

Pruning soundness is stated against the actual rows stored in the parquet
files.  A row is an assignment of values to column names; a file is a list
of rows.  Row-level satisfaction of a condition is what the search path
computes when it reads the surviving files: a row only matches when its
comparison with the query value succeeds and is true.  `LIKE` semantics are
an arbitrary parameter (`likeSem`), since pruning keeps every file for
pattern conditions. -/

abbrev Row := List (String × Value)

/-- Turn an `Except`-valued comparison into row-level truth: a comparison
that raises does not select the row. -/
def okTrue (r : Except Unit Bool) : Bool :=
  match r with
  | .ok b => b
  | .error _ => false

/-- Row-level truth of a single condition at cell value `v`. -/
def satCond (likeSem : String → Value → Bool) (v : Value) : QueryCondition → Bool
  | .ceq w => decide (v = w)
  | .cgt w => okTrue (vlt w v)
  | .clt w => okTrue (vlt v w)
  | .cgte w => okTrue (vle w v)
  | .clte w => okTrue (vle v w)
  | .cin ws => decide (v ∈ ws)
  | .clike p => likeSem p v
  | .cunknown => false
  | .simple w => decide (v = w)

/-- A row matches a conjunction of filters when every filtered column is
present in the row and its value satisfies the condition. -/
def rowMatches (likeSem : String → Value → Bool) (r : Row)
    (filters : List (String × QueryCondition)) : Bool :=
  filters.all fun cq =>
    match alookup cq.1 r with
    | some v => satCond likeSem v cq.2
    | none => false

/-- The precondition on an index entry for column `c` over the rows of its
file: min/max bound every value present, and a recorded unique-value set
contains every value present (completeness). -/
def entryValidB (e : IndexEntry) (c : String) (rows : List Row) : Bool :=
  rows.all fun r =>
    match alookup c r with
    | none => true
    | some v =>
      okTrue (vle e.min_value v) && okTrue (vle v e.max_value) &&
      (match e.unique_values with
       | some vs => decide (v ∈ vs)
       | none => true)

/-- The pruning-soundness precondition over a whole index store: every
recorded entry bounds (and, when a set is recorded, enumerates) the values
actually present in its file. -/
def allEntriesValid (indices : Indices) (contents : String → List Row) : Bool :=
  indices.all fun cci => cci.2.all fun ge => entryValidB ge.2 cci.1 (contents ge.1)

/-- Coverage of file `f` by the index store relative to a filter list: for
every filtered column that is present in the store, `f` has an entry.  This
is the extra precondition under which pruning is sound (see the C1
counterexample for why it is needed). -/
def filtersCovered (indices : Indices) (f : String)
    (filters : List (String × QueryCondition)) : Bool :=
  filters.all fun cq =>
    match alookup cq.1 indices with
    | none => true
    | some ci => (alookup f ci).isSome

/-! ### Concrete index scenarios used by the C1 counterexample, the C1
witness and the C9 example -/

/-- Index entry of file "A" in the uncovered scenario: file "A" holds the
single value 1 in column "c", entry is exact. -/
def uncoveredEntry : IndexEntry := ⟨.int 1, .int 1, some [.int 1]⟩

/-- Index store knowing column "c" only for file "A"; file "B" has no entry. -/
def uncoveredIndices : Indices := [("c", [("A", uncoveredEntry)])]

/-- File contents: "A" holds one row with c = 1, "B" one row with c = 5. -/
def uncoveredContents : String → List Row := fun g =>
  if g = "A" then [[("c", .int 1)]]
  else if g = "B" then [[("c", .int 5)]]
  else []

/-- The filter c = 5 (bare value, simple equality). -/
def uncoveredFilters : List (String × QueryCondition) := [("c", .simple (.int 5))]

/-- A covered scenario: file "F" has an entry for column "c" with range
0..10 and no recorded set; "F" holds one row with c = 5. -/
def coveredEntryF : IndexEntry := ⟨.int 0, .int 10, none⟩

def coveredIndices : Indices := [("c", [("F", coveredEntryF)])]

def coveredContents : String → List Row := fun g =>
  if g = "F" then [[("c", .int 5)]] else []

def coveredFilters : List (String × QueryCondition) := [("c", .cgt (.int 3))]

/-- The spec example for C9: a file whose column `region` has exactly the
four distinct values N, S, E, W (code points 78, 83, 69, 87), so its index
entry records min "E", max "W" and the complete set. -/
def regionEntry : IndexEntry :=
  ⟨.str [69], .str [87], some [.str [78], .str [83], .str [69], .str [87]]⟩

/-- Index store with column `region` indexed for the single file "f1". -/
def regionIndices : Indices := [("region", [("f1", regionEntry)])]

/-- The filter region = "Q" (code point 81). -/
def regionFilters : List (String × QueryCondition) := [("region", .simple (.str [81]))]

/-! ## Cost-based query optimizer (`src/cbo-engine/query_optimizer.py`)

Only the plan-selection and fallback logic is embedded; plan *generation*
walks the filesystem and statistics caches, so `optimize_query` takes the
outcome of `_collect_statistics` plus `_generate_execution_plans` as an
`Except`-valued argument (`.error` models any exception raised inside the
`try` before selection).  Costs are floats in the source, modelled as
rationals. -/

structure CostEstimate where
  cpu_cost : ℚ
  io_cost : ℚ
  memory_cost : ℚ
  network_cost : ℚ
  total_cost : ℚ
deriving DecidableEq, Repr

/-- The `CostEstimate` dataclass constructor including `__post_init__`:
a zero `total_cost` is replaced by the sum of the four components. -/
def mkCostEstimate (cpu io mem net total : ℚ) : CostEstimate :=
  if total = 0 then ⟨cpu, io, mem, net, cpu + io + mem + net⟩
  else ⟨cpu, io, mem, net, total⟩

/-- One entry of an `ExecutionPlan.operators` list (the Python dicts carry
an operator type tag, a cost, a row estimate and the source ids). -/
structure PlanOperator where
  opType : String
  sources : List String
  cost : CostEstimate
  rows_out : ℤ
deriving DecidableEq, Repr

structure ExecutionPlan where
  plan_id : String
  operators : List PlanOperator
  estimated_cost : CostEstimate
  estimated_time_ms : ℚ
  parallelism_factor : ℕ
  index_usage : List String
deriving DecidableEq, Repr

/-- The fold underlying `_select_best_plan`: `plans.sort(key=total_cost)`
is a *stable* sort, so `plans[0]` after sorting is exactly the first plan
(in generation order) attaining the minimal total cost, which this fold
computes by keeping the current best and replacing it only on a strictly
smaller cost. -/
def selectBestFold (p : ExecutionPlan) (ps : List ExecutionPlan) : ExecutionPlan :=
  ps.foldl
    (fun best q =>
      if q.estimated_cost.total_cost < best.estimated_cost.total_cost then q
      else best)
    p

/-- `QueryOptimizer._select_best_plan`: raises `ValueError` on an empty
plan list, otherwise returns the minimum-total-cost plan, ties broken by
generation order. -/
def select_best_plan : List ExecutionPlan → Except String ExecutionPlan
  | [] => .error "No execution plans generated"
  | p :: ps => .ok (selectBestFold p ps)

/-- `QueryOptimizer._create_default_plan`: the fixed fallback plan with
cost estimate (cpu 10, io 10, memory 5, network 0, total 25). -/
def create_default_plan (source_ids : List String) : ExecutionPlan :=
  { plan_id := "default_plan"
    operators := [⟨"scan", source_ids, mkCostEstimate 10 10 5 0 25, 1000⟩]
    estimated_cost := mkCostEstimate 10 10 5 0 25
    estimated_time_ms := 1000
    parallelism_factor := 1
    index_usage := [] }

/-- `QueryOptimizer.optimize_query`: statistics collection and plan
generation happen inside a `try`; any exception there or in selection
(including the `ValueError` for an empty plan list) falls back to the
default plan. -/
def optimize_query (gen : Except String (List ExecutionPlan))
    (source_ids : List String) : ExecutionPlan :=
  match gen with
  | .error _ => create_default_plan source_ids
  | .ok plans =>
    match select_best_plan plans with
    | .ok p => p
    | .error _ => create_default_plan source_ids

/-- Candidate plan with post-init total cost 30, generated first. -/
def planHigh : ExecutionPlan :=
  ⟨"sequential_plan", [], mkCostEstimate 20 10 0 0 0, 1000, 1, []⟩

/-- Candidate plan with post-init total cost 20, generated second. -/
def planLow : ExecutionPlan :=
  ⟨"parallel_plan", [], mkCostEstimate 10 5 5 0 0, 500, 4, []⟩

/-! ## Aggregation (`src/tenant-node/data_source.py`)

`DataSource._avg_aggregate` streams the candidate files of one source; each
file contributes the values of the aggregation column in the rows that pass
the filters (a file is modelled as that list of values; floats are modelled
as rationals).  `SourceManager._combine_aggregations` then merges the
per-source aggregation results. -/

/-- `DataSource._avg_aggregate`: a running (sum, count) pair over the files;
a file only contributes when the column is present and `len(df) > 0`.
Returns sum divided by count, or 0.0 when the count stays 0. -/
def avg_aggregate (files : List (List ℚ)) : ℚ :=
  let acc := files.foldl
    (fun (acc : ℚ × ℕ) f =>
      if 0 < f.length then (acc.1 + f.sum, acc.2 + f.length) else acc)
    (0, 0)
  if 0 < acc.2 then acc.1 / (acc.2 : ℚ) else 0

/-- Total of the aggregation column over all matching rows of all files. -/
def totalSum (files : List (List ℚ)) : ℚ := (files.map List.sum).sum

/-- Total number of matching rows over all files. -/
def totalCount (files : List (List ℚ)) : ℕ := (files.map List.length).sum

/-- The `avg` branch of `SourceManager._combine_aggregations`: it keeps the
per-source values that are strictly positive and returns their plain
arithmetic mean — the source comment itself calls it a simple average of
averages. -/
def combine_avg (source_results : List ℚ) : ℚ :=
  let values := source_results.filter (fun v => 0 < v)
  if 0 < values.length then values.sum / (values.length : ℚ) else 0

/-! ## Write path (`src/tenant-node/data_source.py` with `src/tenant-node/wal.py`)

`DataSource.write_data` runs WAL append → parquet write → metadata
registration → index update → WAL completion inside one `try`.  The
per-source WAL (`wal.py`) is append-only: `log_write_operation` appends a
pending entry record and `mark_operation_complete` and `mark_operation_failed`
append status-update records.  The fallible environment steps are passed in
as `Except` values; a written parquet file is recorded in `files` and is
never removed by the error path. -/

inductive WalRecord where
  | entry (operation_id : String) (operation_type : String) (status : String)
  | statusUpdate (operation_id : String) (status : String)
      (error_message : Option String)
deriving DecidableEq, Repr

structure WriteOutcome where
  wal : List WalRecord
  files : List String
  result : Except String String
deriving Repr

/-- `DataSource.write_data`: the `except` branch appends a failed status
update carrying `str(e)` and re-raises; the success path appends a
completed status update and returns the write id.  A parquet file that was
written before a later step failed stays on disk. -/
def write_data (write_id : String) (walAppend : Except String Unit)
    (parquetWrite : Except String String) (registerMeta : Except String Unit)
    (indexUpdate : Except String Unit) : WriteOutcome :=
  match walAppend with
  | .error e => ⟨[.statusUpdate write_id "failed" (some e)], [], .error e⟩
  | .ok _ =>
    match parquetWrite with
    | .error e =>
      ⟨[.entry write_id "write" "pending",
        .statusUpdate write_id "failed" (some e)], [], .error e⟩
    | .ok path =>
      match registerMeta with
      | .error e =>
        ⟨[.entry write_id "write" "pending",
          .statusUpdate write_id "failed" (some e)], [path], .error e⟩
      | .ok _ =>
        match indexUpdate with
        | .error e =>
          ⟨[.entry write_id "write" "pending",
            .statusUpdate write_id "failed" (some e)], [path], .error e⟩
        | .ok _ =>
          ⟨[.entry write_id "write" "pending",
            .statusUpdate write_id "completed" none], [path], .ok write_id⟩

/-! ## Engine WAL (`src/engine/storage/wal_manager.py`)

The buffered engine WAL appends entries to an in-memory buffer and flushes
to the active segment file when the buffer reaches `ENTRIES_BEFORE_FLUSH`
(a timer flush and shutdown flush exist as well; the claim is about the
threshold path, which is synchronous inside `append`).  Rotation starts a
new segment when the active one exists and exceeds the size cap; entry
serialization size is an abstract parameter.  The checkpoint hook at the
end of `_flush_locked` writes a catalog snapshot to a separate file and
does not touch the WAL state beyond `write_count`, so it is not modelled. -/

def ENTRIES_BEFORE_FLUSH : ℕ := 50

structure EngineWalState (E : Type) where
  buffer : List E
  activeSegment : List E
  archivedSegments : List (List E)
  fileExists : Bool
  writeCount : ℕ
deriving Repr, DecidableEq

/-- Fresh `WALManager.__init__` state: empty buffer, a new segment path
whose file does not exist yet. -/
def initialEngineWal (E : Type) : EngineWalState E := ⟨[], [], [], false, 0⟩

/-- `WALManager._flush_locked`: drains the buffer, rotates when the active
segment file exists and exceeds `maxSize`, appends the drained entries to
the (possibly fresh) active segment and bumps `write_count`. -/
def flush_locked {E : Type} (size : List E → ℕ) (maxSize : ℕ)
    (st : EngineWalState E) : EngineWalState E :=
  let data := st.buffer
  if st.fileExists && decide (maxSize < size st.activeSegment) then
    { buffer := []
      activeSegment := data
      archivedSegments := st.activeSegment :: st.archivedSegments
      fileExists := true
      writeCount := st.writeCount + data.length }
  else
    { buffer := []
      activeSegment := st.activeSegment ++ data
      archivedSegments := st.archivedSegments
      fileExists := true
      writeCount := st.writeCount + data.length }

/-- `WALManager.append`: buffers the entry and flushes exactly when
`len(self.buffer) >= ENTRIES_BEFORE_FLUSH`. -/
def wal_append {E : Type} (size : List E → ℕ) (maxSize : ℕ)
    (st : EngineWalState E) (entry : E) : EngineWalState E :=
  let st1 := { st with buffer := st.buffer ++ [entry] }
  if ENTRIES_BEFORE_FLUSH ≤ st1.buffer.length then flush_locked size maxSize st1
  else st1

/-! ## Auto-scaler (`src/operation-node/auto_scaler.py`)

Timestamps are modelled as seconds (naturals); `timedelta.seconds` is the
seconds *component* of the difference, i.e. the elapsed seconds modulo
86400.  Python `int()` on the nonnegative float products truncates toward
zero, i.e. takes the floor. -/

structure ScalingMetrics where
  cpu_usage : ℚ
  memory_usage : ℚ
  active_queries : ℚ
  query_queue_length : ℚ
  avg_query_time : ℚ
deriving DecidableEq, Repr

structure ScalingPolicy where
  cpu_scale_up_threshold : ℚ
  cpu_scale_down_threshold : ℚ
  memory_scale_up_threshold : ℚ
  memory_scale_down_threshold : ℚ
  max_concurrent_queries : ℚ
  query_queue_threshold : ℚ
  avg_query_time_threshold : ℚ
  min_workers : ℕ
  max_workers : ℕ
  scale_up_factor : ℚ
  scale_down_factor : ℚ
  scale_up_cooldown : ℕ
  scale_down_cooldown : ℕ
deriving DecidableEq, Repr

/-- The dataclass defaults of `ScalingPolicy`. -/
def defaultScalingPolicy : ScalingPolicy :=
  ⟨70, 30, 80, 40, 50, 10, 30, 2, 100, 3/2, 7/10, 300, 600⟩

structure AutoScalerState where
  metrics_history : List ScalingMetrics
  current_workers : ℕ
  last_scale_up : Option ℕ
  last_scale_down : Option ℕ
  scaling_in_progress : Bool
deriving DecidableEq, Repr

/-- `(current_time - earlier).seconds` for nonnegative differences. -/
def tdSeconds (now earlier : ℕ) : ℕ := (now - earlier) % 86400

/-- `AutoScaler._scale_up`: no-op at capacity, otherwise multiplies the
worker count by the scale-up factor (truncated), clamped from above by
`max_workers`, and records the scale-up time.  `scaling_in_progress` is set
during the action and cleared in the `finally`, so it ends `false`. -/
def scale_up (policy : ScalingPolicy) (st : AutoScalerState) (now : ℕ) :
    AutoScalerState :=
  if policy.max_workers ≤ st.current_workers then st
  else
    { st with
      current_workers :=
        min (⌊(st.current_workers : ℚ) * policy.scale_up_factor⌋₊)
          policy.max_workers
      last_scale_up := some now
      scaling_in_progress := false }

/-- `AutoScaler._scale_down`: no-op at the floor, otherwise multiplies by
the scale-down factor (truncated), clamped from below by `min_workers`. -/
def scale_down (policy : ScalingPolicy) (st : AutoScalerState) (now : ℕ) :
    AutoScalerState :=
  if st.current_workers ≤ policy.min_workers then st
  else
    { st with
      current_workers :=
        max (⌊(st.current_workers : ℚ) * policy.scale_down_factor⌋₊)
          policy.min_workers
      last_scale_down := some now
      scaling_in_progress := false }

/-- The last three metrics snapshots (`list(self.metrics_history)[-3:]`). -/
def recentMetrics (history : List ScalingMetrics) : List ScalingMetrics :=
  history.drop (history.length - 3)

/-- The scale-up trigger: any of the five averaged metrics above its
up-threshold. -/
def shouldScaleUp (policy : ScalingPolicy) (history : List ScalingMetrics) : Bool :=
  let recent := recentMetrics history
  let n : ℚ := recent.length
  decide (policy.cpu_scale_up_threshold < (recent.map (·.cpu_usage)).sum / n) ||
  decide (policy.memory_scale_up_threshold < (recent.map (·.memory_usage)).sum / n) ||
  decide (policy.max_concurrent_queries * (8/10) <
    (recent.map (·.active_queries)).sum / n) ||
  decide (policy.query_queue_threshold < (recent.map (·.query_queue_length)).sum / n) ||
  decide (policy.avg_query_time_threshold < (recent.map (·.avg_query_time)).sum / n)

/-- The scale-down trigger: all five averaged metrics below their
down-thresholds (queue average exactly zero). -/
def shouldScaleDown (policy : ScalingPolicy) (history : List ScalingMetrics) : Bool :=
  let recent := recentMetrics history
  let n : ℚ := recent.length
  decide ((recent.map (·.cpu_usage)).sum / n < policy.cpu_scale_down_threshold) &&
  decide ((recent.map (·.memory_usage)).sum / n < policy.memory_scale_down_threshold) &&
  decide ((recent.map (·.active_queries)).sum / n <
    policy.max_concurrent_queries * (3/10)) &&
  decide ((recent.map (·.query_queue_length)).sum / n = 0) &&
  decide ((recent.map (·.avg_query_time)).sum / n <
    policy.avg_query_time_threshold * (1/2))

/-- `AutoScaler._evaluate_scaling`: bails out while scaling is in progress
or with fewer than 3 snapshots; otherwise applies the scale-up trigger
(guarded by the scale-up cooldown) and only if it does not fire the
scale-down trigger (guarded by the scale-down cooldown). -/
def evaluate_scaling (policy : ScalingPolicy) (st : AutoScalerState) (now : ℕ) :
    AutoScalerState :=
  if st.scaling_in_progress || decide (st.metrics_history.length < 3) then st
  else if shouldScaleUp policy st.metrics_history then
    match st.last_scale_up with
    | none => scale_up policy st now
    | some t =>
      if policy.scale_up_cooldown < tdSeconds now t then scale_up policy st now
      else st
  else if shouldScaleDown policy st.metrics_history then
    match st.last_scale_down with
    | none => scale_down policy st now
    | some t =>
      if policy.scale_down_cooldown < tdSeconds now t then scale_down policy st now
      else st
  else st

/-- A metrics snapshot that fires every scale-up trigger of the default
policy. -/
def hotMetrics : ScalingMetrics := ⟨95, 90, 45, 20, 60⟩

/-! ## Cold migration (`src/engine/storage/migrate.py`)

The catalog is a dict from relative path to metadata; the hot and cold
tiers of the filesystem are modelled as characteristic functions on paths.
`max_ts` holds the parsed timestamp (seconds); `none` models a raw value
on which `datetime.fromisoformat` (or the `.replace` on a missing value)
raises, which the source catches and skips.  `hot_path.rename` is modelled
as succeeding whenever the hot file exists. -/

structure CatalogMeta where
  location : String
  max_ts : Option ℤ
deriving DecidableEq, Repr

structure MigrationState where
  catalog : List (String × CatalogMeta)
  hot : String → Bool
  cold : String → Bool

/-- Flip an entry to the cold tier (`meta["location"] = "cold"`). -/
def flipCold (pm : String × CatalogMeta) : String × CatalogMeta :=
  (pm.1, { pm.2 with location := "cold" })

/-- An entry is migrated exactly when it is in the hot tier, its timestamp
parses and is older than the cutoff, and its file exists in the hot tier. -/
def eligibleB (cutoff : ℤ) (hot : String → Bool)
    (pm : String × CatalogMeta) : Bool :=
  (pm.2.location == "hot") &&
  (match pm.2.max_ts with
   | some ts => decide (ts < cutoff)
   | none => false) &&
  hot pm.1

/-- The body of the `for path, meta in catalog.items()` loop of
`migrate_to_cold_storage`: skip non-hot entries, skip unparsable
timestamps, skip files missing from the hot tier; otherwise rename the
file from hot to cold, flip the entry and count it. -/
def migrateStep (cutoff : ℤ)
    (acc : List (String × CatalogMeta) × (String → Bool) × (String → Bool) × ℕ)
    (pm : String × CatalogMeta) :
    List (String × CatalogMeta) × (String → Bool) × (String → Bool) × ℕ :=
  let (cat, hot, cold, moved) := acc
  if pm.2.location ≠ "hot" then (cat ++ [pm], hot, cold, moved)
  else
    match pm.2.max_ts with
    | none => (cat ++ [pm], hot, cold, moved)
    | some ts =>
      if ts < cutoff then
        if hot pm.1 then
          (cat ++ [flipCold pm],
           fun q => if q = pm.1 then false else hot q,
           fun q => if q = pm.1 then true else cold q,
           moved + 1)
        else (cat ++ [pm], hot, cold, moved)
      else (cat ++ [pm], hot, cold, moved)

/-- `migrate_to_cold_storage(cutoff_days)`: cutoff is now minus
`cutoff_days` days; returns the updated catalog/filesystem and the number
of entries moved. -/
def migrate_to_cold_storage (st : MigrationState) (now cutoff_days : ℤ) :
    MigrationState × ℕ :=
  let cutoff := now - cutoff_days * 86400
  let r := st.catalog.foldl (migrateStep cutoff) ([], st.hot, st.cold, 0)
  (⟨r.1, r.2.1, r.2.2.1⟩, r.2.2.2)

/-! ## File compaction (`src/metadata-catalog/compaction_manager.py`)

A parquet file is identified by its location — the data directory of the
source, or a dated backup directory — and carries its row count; the
filesystem is a partial map from locations to row counts.  `catalogRefs`
and `indexRefs` list the file names the catalog and index currently
reference; nothing in `compaction_manager.py` reads or writes either, so
`_compact_files` carries them through unchanged. -/

inductive Loc where
  | data (name : String)
  | backup (date : String) (name : String)
deriving DecidableEq, Repr

structure CompactionFs where
  files : Loc → Option ℕ
  catalogRefs : List String
  indexRefs : List String

/-- The move loop of `_cleanup_original_files`: `shutil.move` each
original into the dated backup directory.  A missing source file makes
`shutil.move` raise; the surrounding `try` stops the loop there but is
non-fatal to the compaction job. -/
def moveAll (date : String) : List String → (Loc → Option ℕ) → (Loc → Option ℕ)
  | [], f => f
  | n :: rest, f =>
    match f (.data n) with
    | some cnt =>
      moveAll date rest
        (fun l =>
          if l = .backup date n then some cnt
          else if l = .data n then none
          else f l)
    | none => f

/-- `FileCompactionManager._compact_files` followed by
`_cleanup_original_files`: read every input file that is readable (others
are skipped), fail when none is readable, concatenate the rows into one
output file written next to the inputs, then move the originals into the
dated backup directory.  No catalog or index call occurs anywhere in the
source of either function. -/
def compact_files (fs : CompactionFs) (file_group : List String)
    (date outName : String) : Except String CompactionFs :=
  let counts := file_group.filterMap (fun n => fs.files (.data n))
  if counts.isEmpty then .error "No valid input files to compact"
  else
    let total := counts.sum
    let files1 := fun l => if l = .data outName then some total else fs.files l
    let files2 := moveAll date file_group files1
    .ok { files := files2
          catalogRefs := fs.catalogRefs
          indexRefs := fs.indexRefs }

/-- Concrete compaction scenario: two data files "a" (2 rows) and "b"
(3 rows), both referenced by catalog and index. -/
def compactExampleFs : CompactionFs :=
  { files := fun l =>
      if l = .data "a" then some 2
      else if l = .data "b" then some 3
      else none
    catalogRefs := ["a", "b"]
    indexRefs := ["a", "b"] }

/-- Concrete migration scenario: a hot entry old enough to move, a hot
entry too recent, an entry already cold, and a hot entry with an
unparsable timestamp. -/
def migrateExample : MigrationState :=
  { catalog := [("old.parquet", ⟨"hot", some 0⟩),
                ("new.parquet", ⟨"hot", some 950000⟩),
                ("archived.parquet", ⟨"cold", some 0⟩),
                ("bad.parquet", ⟨"hot", none⟩)]
    hot := fun q => q == "old.parquet" || q == "new.parquet" || q == "bad.parquet"
    cold := fun q => q == "archived.parquet" }

theorem vle_trans {a b c : Value} (h1 : vle a b = .ok true) (h2 : vle b c = .ok true) :
    vle a c = .ok true := by
  cases a <;> cases b <;> cases c <;>
    simp_all [vle] <;> exact le_trans h1 h2

theorem vlt_of_vlt_of_vle {a b c : Value} (h1 : vlt a b = .ok true)
    (h2 : vle b c = .ok true) : vlt a c = .ok true := by
  cases a <;> cases b <;> cases c <;>
    simp_all [vlt, vle] <;> exact lt_of_lt_of_le h1 h2

theorem vlt_of_vle_of_vlt {a b c : Value} (h1 : vle a b = .ok true)
    (h2 : vlt b c = .ok true) : vlt a c = .ok true := by
  cases a <;> cases b <;> cases c <;>
    simp_all [vlt, vle] <;> exact lt_of_le_of_lt h1 h2

theorem okTrue_eq {r : Except Unit Bool} (h : okTrue r = true) : r = .ok true := by
  cases r with
  | ok b => cases b <;> simp_all [okTrue]
  | error e => simp [okTrue] at h

theorem chainLe_ok {a v b : Value} (h1 : vle a v = .ok true)
    (h2 : vle v b = .ok true) : chainLe a v b = .ok true := by
  simp [chainLe, h1, h2, Bind.bind, Except.bind, Pure.pure, Except.pure]

theorem anyChainLe_ne_ok_false {lo hi v : Value} {vs : List Value}
    (hmem : v ∈ vs) (hv : chainLe lo v hi = .ok true) :
    anyChainLe lo hi vs ≠ .ok false := by
  induction vs with
  | nil => simp at hmem
  | cons w ws ih =>
    rcases List.mem_cons.mp hmem with h | h
    · subst h
      simp [anyChainLe, hv, Bind.bind, Except.bind, Pure.pure, Except.pure]
    · match hcw : chainLe lo w hi with
      | .error e => simp [anyChainLe, hcw, Bind.bind, Except.bind, Pure.pure, Except.pure]
      | .ok true => simp [anyChainLe, hcw, Bind.bind, Except.bind, Pure.pure, Except.pure]
      | .ok false =>
        simpa [anyChainLe, hcw, Bind.bind, Except.bind, Pure.pure, Except.pure] using ih h

/-- Core pruning-soundness lemma: a valid index entry cannot reject a
condition that some row of the file satisfies. -/
theorem file_matches_of_valid {e : IndexEntry} {c : String} {rows : List Row}
    {r : Row} {v : Value} {likeSem : String → Value → Bool}
    {cond : QueryCondition}
    (hvalid : entryValidB e c rows = true) (hr : r ∈ rows)
    (hl : alookup c r = some v) (hsat : satCond likeSem v cond = true) :
    file_matches_condition e cond = true := by
  have hrow := (List.all_eq_true.mp hvalid) r hr
  rw [hl] at hrow
  simp only [Bool.and_eq_true] at hrow
  obtain ⟨⟨hmin, hmax⟩, huniq⟩ := hrow
  have hminv : vle e.min_value v = .ok true := okTrue_eq hmin
  have hmaxv : vle v e.max_value = .ok true := okTrue_eq hmax
  have hchain : chainLe e.min_value v e.max_value = .ok true := chainLe_ok hminv hmaxv
  have hmem : ∀ vs, e.unique_values = some vs → v ∈ vs := by
    intro vs hvs
    rw [hvs] at huniq
    simpa using huniq
  cases cond with
  | ceq w =>
    have hvw : v = w := by simpa [satCond] using hsat
    subst hvw
    cases huv : e.unique_values with
    | none => simp [file_matches_condition, condEval, IndexEntry.uvTruthy, huv, hchain]
    | some vs =>
      cases vs with
      | nil => exact absurd (hmem [] huv) (by simp)
      | cons x xs =>
        simp [file_matches_condition, condEval, IndexEntry.uvTruthy, huv, hmem _ huv]
  | simple w =>
    have hvw : v = w := by simpa [satCond] using hsat
    subst hvw
    cases huv : e.unique_values with
    | none => simp [file_matches_condition, condEval, IndexEntry.uvTruthy, huv, hchain]
    | some vs =>
      cases vs with
      | nil => exact absurd (hmem [] huv) (by simp)
      | cons x xs =>
        simp [file_matches_condition, condEval, IndexEntry.uvTruthy, huv, hmem _ huv]
  | cgt w =>
    have hwv : vlt w v = .ok true := okTrue_eq (by simpa [satCond] using hsat)
    simp [file_matches_condition, condEval, vlt_of_vlt_of_vle hwv hmaxv]
  | clt w =>
    have hvw : vlt v w = .ok true := okTrue_eq (by simpa [satCond] using hsat)
    simp [file_matches_condition, condEval, vlt_of_vle_of_vlt hminv hvw]
  | cgte w =>
    have hwv : vle w v = .ok true := okTrue_eq (by simpa [satCond] using hsat)
    simp [file_matches_condition, condEval, vle_trans hwv hmaxv]
  | clte w =>
    have hvw : vle v w = .ok true := okTrue_eq (by simpa [satCond] using hsat)
    simp [file_matches_condition, condEval, vle_trans hminv hvw]
  | cin ws =>
    have hvin : v ∈ ws := by simpa [satCond] using hsat
    cases huv : e.unique_values with
    | none =>
      have hne := anyChainLe_ne_ok_false hvin hchain
      unfold file_matches_condition condEval
      simp only [IndexEntry.uvTruthy, huv]
      cases hac : anyChainLe e.min_value e.max_value ws with
      | ok b =>
        cases b
        · exact absurd hac hne
        · simp
      | error e => simp
    | some vs =>
      cases vs with
      | nil => exact absurd (hmem [] huv) (by simp)
      | cons x xs =>
        have hex : ∃ u ∈ x :: xs, u ∈ ws := ⟨v, hmem _ huv, hvin⟩
        simp only [file_matches_condition, condEval, IndexEntry.uvTruthy, huv]
        simpa using hex
  | clike p => simp [file_matches_condition, condEval]
  | cunknown => simp [file_matches_condition, condEval]

theorem mem_foldl_filter_of_matches (indices : Indices) (f : String) :
    ∀ (filters : List (String × QueryCondition)) (acc : List String),
      f ∈ acc →
      (∀ cq ∈ filters, ∀ ci, alookup cq.1 indices = some ci →
        ∃ e, alookup f ci = some e ∧ file_matches_condition e cq.2 = true) →
      f ∈ filters.foldl
        (fun optimized (cq : String × QueryCondition) =>
          match alookup cq.1 indices with
          | none => optimized
          | some column_indices =>
            optimized.filter (fun g =>
              match alookup g column_indices with
              | some e => file_matches_condition e cq.2
              | none => false))
        acc := by
  intro filters
  induction filters with
  | nil => intro acc hacc _; simpa using hacc
  | cons cq rest ih =>
    intro acc hacc hfacts
    simp only [List.foldl_cons]
    apply ih
    · cases hci : alookup cq.1 indices with
      | none => simpa [hci] using hacc
      | some ci =>
        obtain ⟨e, he, hm⟩ := hfacts cq (by simp) ci hci
        simp only [hci]
        exact List.mem_filter.mpr ⟨hacc, by simp [he, hm]⟩
    · intro c hc ci hci
      exact hfacts c (List.mem_cons_of_mem _ hc) ci hci

theorem alookup_mem {α : Type} {k : String} {l : List (String × α)} {v : α}
    (h : alookup k l = some v) : (k, v) ∈ l := by
  induction l with
  | nil => simp [alookup] at h
  | cons p rest ih =>
    obtain ⟨k1, v1⟩ := p
    by_cases hk : k1 = k
    · subst hk
      simp [alookup] at h
      subst h
      exact List.mem_cons_self _ _
    · simp [alookup, hk] at h
      exact List.mem_cons_of_mem _ (ih h)

theorem entryValid_of_all {indices : Indices} {contents : String → List Row}
    {c g : String} {ci : List (String × IndexEntry)} {e : IndexEntry}
    (hall : allEntriesValid indices contents = true)
    (hc : alookup c indices = some ci) (hg : alookup g ci = some e) :
    entryValidB e c (contents g) = true := by
  have h1 := List.all_eq_true.mp hall _ (alookup_mem hc)
  exact List.all_eq_true.mp h1 _ (alookup_mem hg)

/-- C1 counterexample: the claim quantifies over every index state and only
requires validity of the entries that exist.  In the `uncovered` scenario
every existing entry is valid, file "B" contains a row matching the filter
c = 5, yet `optimize_file_list` excludes "B" — because "B" has no entry for
the indexed column "c" it is never added to `matching_files` and is dropped
by the intersection.  Pruning soundness as stated is therefore false. -/
theorem C1_pruning_unsound_without_coverage :
    allEntriesValid uncoveredIndices uncoveredContents = true ∧
    (∃ r ∈ uncoveredContents "B",
      rowMatches (fun _ _ => false) r uncoveredFilters = true) ∧
    "B" ∉ optimize_file_list uncoveredIndices ["A", "B"] uncoveredFilters := by
  decide

/-- C1 (amended): pruning soundness holds once the candidate file is
covered by the index: under the claim preconditions (every existing index
entry has a bounding min/max and a complete recorded set) plus the extra
precondition that the file has an entry for every filtered column present
in the index, `optimize_file_list` never excludes a file containing at
least one row matching the filter; condition-evaluation errors make the
condition pass, so they can only keep a file, never drop it. -/
theorem C1_pruning_soundness (indices : Indices) (files : List String)
    (filters : List (String × QueryCondition)) (contents : String → List Row)
    (likeSem : String → Value → Bool) (f : String)
    (hvalid : allEntriesValid indices contents = true)
    (hcover : filtersCovered indices f filters = true)
    (hf : f ∈ files)
    (hmatch : ∃ r ∈ contents f, rowMatches likeSem r filters = true) :
    f ∈ optimize_file_list indices files filters := by
  obtain ⟨r, hr, hrm⟩ := hmatch
  unfold optimize_file_list
  cases hemp : filters.isEmpty with
  | true => simpa using hf
  | false =>
    simp only [Bool.false_eq_true, if_false]
    apply mem_foldl_filter_of_matches
    · exact List.mem_dedup.mpr hf
    · intro cq hcq ci hci
      have hcov := List.all_eq_true.mp hcover cq hcq
      rw [hci] at hcov
      simp only [Option.isSome_iff_exists] at hcov
      obtain ⟨e, he⟩ := hcov
      have hsatr := List.all_eq_true.mp hrm cq hcq
      cases hlr : alookup cq.1 r with
      | none => rw [hlr] at hsatr; simp at hsatr
      | some v =>
        rw [hlr] at hsatr
        simp only at hsatr
        exact ⟨e, he,
          file_matches_of_valid (entryValid_of_all hvalid hci he) hr hlr hsatr⟩

/-- Witness for C1: in the covered scenario, file "F" (row c = 5, entry
range 0..10) survives pruning under the filter c > 3. -/
theorem C1_pruning_soundness_witness :
    "F" ∈ optimize_file_list coveredIndices ["F"] coveredFilters :=
  C1_pruning_soundness coveredIndices ["F"] coveredFilters coveredContents
    (fun _ _ => false) "F" (by decide) (by decide) (by decide) (by decide)

/-- C9: for a file whose index entry for column `region` records the
complete value set of its 4 distinct values N, S, E, W, pruning with the
equality filter region = "Q" excludes the file, even though "Q" lies inside
the [min, max] range ["E", "W"] — the recorded set takes precedence and no
range fallback happens. -/
theorem C9_equality_excluded_by_recorded_set :
    optimize_file_list regionIndices ["f1"] regionFilters = [] ∧
    chainLe regionEntry.min_value (.str [81]) regionEntry.max_value = .ok true :=
  ⟨by decide, by rfl⟩

theorem mem_foldl_filter_subset (indices : Indices) (f : String) :
    ∀ (filters : List (String × QueryCondition)) (acc : List String),
      f ∈ filters.foldl
        (fun optimized (cq : String × QueryCondition) =>
          match alookup cq.1 indices with
          | none => optimized
          | some column_indices =>
            optimized.filter (fun g =>
              match alookup g column_indices with
              | some e => file_matches_condition e cq.2
              | none => false))
        acc →
      f ∈ acc := by
  intro filters
  induction filters with
  | nil => intro acc h; simpa using h
  | cons cq rest ih =>
    intro acc h
    simp only [List.foldl_cons] at h
    have h2 := ih _ h
    cases hci : alookup cq.1 indices with
    | none => simpa [hci] using h2
    | some ci =>
      rw [hci] at h2
      exact List.mem_of_mem_filter h2

/-- C10: the output of `optimize_file_list` only contains paths from the
input candidate list, and an empty filter dictionary returns the input
list unchanged (the early `return file_paths`). -/
theorem C10_optimize_subset_and_empty_id (indices : Indices)
    (files : List String) (filters : List (String × QueryCondition)) :
    (∀ f, f ∈ optimize_file_list indices files filters → f ∈ files) ∧
    (filters = [] → optimize_file_list indices files filters = files) := by
  constructor
  · intro f hf
    unfold optimize_file_list at hf
    cases hemp : filters.isEmpty with
    | true => simpa [hemp] using hf
    | false =>
      rw [hemp] at hf
      simp only [Bool.false_eq_true, if_false] at hf
      exact List.mem_dedup.mp (mem_foldl_filter_subset indices f filters _ hf)
  · intro h
    subst h
    rfl

/-- Witness for C10 at concrete inputs: membership transfer on a two-file
list with an unindexed filter column, and identity on an empty filter. -/
theorem C10_optimize_subset_witness :
    "A" ∈ ["A", "B"] ∧ optimize_file_list [] ["A"] [] = ["A"] :=
  ⟨(C10_optimize_subset_and_empty_id [] ["A", "B"] [("c", .cunknown)]).1 "A"
      (by decide),
    (C10_optimize_subset_and_empty_id [] ["A"] []).2 rfl⟩

theorem selectBestFold_le (p : ExecutionPlan) (ps : List ExecutionPlan) :
    (selectBestFold p ps).estimated_cost.total_cost ≤ p.estimated_cost.total_cost ∧
    ∀ q ∈ ps,
      (selectBestFold p ps).estimated_cost.total_cost ≤ q.estimated_cost.total_cost := by
  induction ps generalizing p with
  | nil => exact ⟨le_refl _, by simp⟩
  | cons q ps ih =>
    simp only [selectBestFold, List.foldl_cons]
    by_cases h : q.estimated_cost.total_cost < p.estimated_cost.total_cost
    · have ihq := ih q
      simp only [selectBestFold] at ihq
      rw [if_pos h]
      refine ⟨le_of_lt (lt_of_le_of_lt ihq.1 h), ?_⟩
      intro x hx
      rcases List.mem_cons.mp hx with hx | hx
      · subst hx; exact ihq.1
      · exact ihq.2 x hx
    · have ihp := ih p
      simp only [selectBestFold] at ihp
      rw [if_neg h]
      refine ⟨ihp.1, ?_⟩
      intro x hx
      rcases List.mem_cons.mp hx with hx | hx
      · subst hx; exact le_trans ihp.1 (not_lt.mp h)
      · exact ihp.2 x hx

theorem selectBestFold_first (p : ExecutionPlan) (ps : List ExecutionPlan) :
    ∃ l₁ l₂, p :: ps = l₁ ++ (selectBestFold p ps) :: l₂ ∧
      ∀ q ∈ l₁,
        (selectBestFold p ps).estimated_cost.total_cost < q.estimated_cost.total_cost := by
  induction ps generalizing p with
  | nil => exact ⟨[], [], by simp [selectBestFold], by simp⟩
  | cons q ps ih =>
    simp only [selectBestFold, List.foldl_cons]
    by_cases h : q.estimated_cost.total_cost < p.estimated_cost.total_cost
    · rw [if_pos h]
      obtain ⟨l₁, l₂, heq, hlt⟩ := ih q
      simp only [selectBestFold] at heq hlt
      refine ⟨p :: l₁, l₂, by rw [List.cons_append, ← heq], ?_⟩
      intro x hx
      rcases List.mem_cons.mp hx with hx | hx
      · subst hx
        exact lt_of_le_of_lt (selectBestFold_le q ps).1 h
      · exact hlt x hx
    · rw [if_neg h]
      obtain ⟨l₁, l₂, heq, hlt⟩ := ih p
      simp only [selectBestFold] at heq hlt
      cases l₁ with
      | nil =>
        simp only [List.nil_append] at heq
        have hp := ((List.cons.injEq _ _ _ _).mp heq).1
        refine ⟨[], q :: ps, ?_, by simp⟩
        rw [List.nil_append]
        exact congrArg (fun z => z :: q :: ps) hp
      | cons x l₁ =>
        have hx := (List.cons.injEq _ _ _ _).mp (by simpa using heq)
        have hrx := hlt x (by simp)
        have hrp := hrx
        rw [← hx.1] at hrp
        refine ⟨p :: q :: l₁, l₂, ?_, ?_⟩
        · exact congrArg (fun z => p :: q :: z) hx.2
        · intro y hy
          rcases List.mem_cons.mp hy with hy | hy
          · subst hy
            exact hrp
          · rcases List.mem_cons.mp hy with hy | hy
            · subst hy
              exact lt_of_lt_of_le hrp (not_lt.mp h)
            · exact hlt y (List.mem_cons_of_mem _ hy)

/-- C2: when statistics collection and plan generation succeed with a
nonempty candidate list, `optimize_query` returns the first generated plan
attaining the minimum `total_cost` (ties broken by generation order); when
generation raises, or the plan list is empty (the `ValueError` from
`_select_best_plan`), it returns the default plan, whose cost estimate is
the fixed constant (cpu 10, io 10, memory 5, network 0, total 25). -/
theorem C2_optimizer_min_cost_or_default
    (gen : Except String (List ExecutionPlan)) (source_ids : List String) :
    (∀ plans p ps, gen = .ok plans → plans = p :: ps →
      ∃ l₁ l₂, plans = l₁ ++ optimize_query gen source_ids :: l₂ ∧
        (∀ q ∈ l₁,
          (optimize_query gen source_ids).estimated_cost.total_cost <
            q.estimated_cost.total_cost) ∧
        (∀ q ∈ plans,
          (optimize_query gen source_ids).estimated_cost.total_cost ≤
            q.estimated_cost.total_cost)) ∧
    (∀ e, gen = .error e →
      optimize_query gen source_ids = create_default_plan source_ids) ∧
    (gen = .ok [] →
      optimize_query gen source_ids = create_default_plan source_ids) ∧
    (create_default_plan source_ids).estimated_cost =
      ⟨10, 10, 5, 0, 25⟩ := by
  refine ⟨?_, ?_, ?_, ?_⟩
  · intro plans p ps hok heq
    subst hok
    subst heq
    simp only [optimize_query, select_best_plan]
    obtain ⟨l₁, l₂, hsplit, hstrict⟩ := selectBestFold_first p ps
    refine ⟨l₁, l₂, hsplit, hstrict, ?_⟩
    intro q hq
    rcases List.mem_cons.mp hq with hq | hq
    · subst hq; exact (selectBestFold_le q ps).1
    · exact (selectBestFold_le p ps).2 q hq
  · intro e he; subst he; rfl
  · intro he; subst he; rfl
  · rfl

/-- Witness for C2: on the concrete two-plan list `[planHigh, planLow]`
(costs 30 and 20), selection returns the cheaper second plan; on an empty
plan list the default plan is returned. -/
theorem C2_optimizer_min_cost_witness :
    (∃ l₁ l₂, [planHigh, planLow] =
        l₁ ++ optimize_query (.ok [planHigh, planLow]) ["s1"] :: l₂ ∧
      (∀ q ∈ l₁,
        (optimize_query (.ok [planHigh, planLow]) ["s1"]).estimated_cost.total_cost <
          q.estimated_cost.total_cost) ∧
      (∀ q ∈ [planHigh, planLow],
        (optimize_query (.ok [planHigh, planLow]) ["s1"]).estimated_cost.total_cost ≤
          q.estimated_cost.total_cost)) ∧
    optimize_query (.ok []) ["s1"] = create_default_plan ["s1"] :=
  ⟨(C2_optimizer_min_cost_or_default (.ok [planHigh, planLow]) ["s1"]).1
      [planHigh, planLow] planHigh [planLow] rfl rfl,
    (C2_optimizer_min_cost_or_default (.ok []) ["s1"]).2.2.1 rfl⟩

theorem avg_fold_eq (files : List (List ℚ)) :
    ∀ s : ℚ, ∀ n : ℕ,
      files.foldl
        (fun (acc : ℚ × ℕ) f =>
          if 0 < f.length then (acc.1 + f.sum, acc.2 + f.length) else acc)
        (s, n) = (s + totalSum files, n + totalCount files) := by
  induction files with
  | nil => intro s n; simp [totalSum, totalCount]
  | cons f fs ih =>
    intro s n
    simp only [List.foldl_cons]
    by_cases h : 0 < f.length
    · rw [if_pos h, ih]
      simp [totalSum, totalCount, add_assoc]
    · have hf : f = [] := List.length_eq_zero.mp (Nat.eq_zero_of_not_pos h)
      subst hf
      rw [if_neg h, ih]
      simp [totalSum, totalCount]

/-- C4 counterexample: two sources, the first holding one file with rows
0 and 2 (per-source average 1), the second one file with row 4 (average 4).
`_combine_aggregations` returns (1 + 4) / 2 = 5/2, while the running
sum/count over all matching rows gives 6 / 3 = 2 — so across sources the
returned average is an average of per-source averages, and the claim as
stated is false. -/
theorem C4_combine_avg_not_pooled :
    combine_avg [avg_aggregate [[0, 2]], avg_aggregate [[4]]] ≠
      totalSum [[0, 2], [4]] / (totalCount [[0, 2], [4]] : ℚ) := by
  norm_num [avg_aggregate, combine_avg, totalSum, totalCount]

/-- C4 (amended): within a single source `_avg_aggregate` does fold a
running (sum, count) pair, so its result is the total column sum over all
matching rows divided by the total matching row count; but across sources
`_combine_aggregations` returns the unweighted mean of the positive
per-source averages, which differs from the pooled average (5/2 against 2
on the counterexample data). -/
theorem C4_avg_pooled_within_source_only (files : List (List ℚ))
    (h : 0 < totalCount files) :
    avg_aggregate files = totalSum files / (totalCount files : ℚ) ∧
    combine_avg [avg_aggregate [[0, 2]], avg_aggregate [[4]]] = 5 / 2 ∧
    totalSum [[0, 2], [4]] / (totalCount [[0, 2], [4]] : ℚ) = 2 := by
  refine ⟨?_, by norm_num [avg_aggregate, combine_avg], by norm_num [totalSum, totalCount]⟩
  unfold avg_aggregate
  rw [avg_fold_eq files 0 0]
  simp only [zero_add]
  rw [if_pos h]

/-- Witness for C4 at a concrete source: two files with rows (1) and
(2, 3); the running pair gives 6 / 3 = 2. -/
theorem C4_avg_pooled_witness :
    avg_aggregate [[1], [2, 3]] =
      totalSum [[1], [2, 3]] / (totalCount [[1], [2, 3]] : ℚ) ∧
    combine_avg [avg_aggregate [[0, 2]], avg_aggregate [[4]]] = 5 / 2 ∧
    totalSum [[0, 2], [4]] / (totalCount [[0, 2], [4]] : ℚ) = 2 :=
  C4_avg_pooled_within_source_only [[1], [2, 3]] (by decide)

/-- C5: for every batch, any step failing after the WAL append leaves a
failed status update carrying the error message in the WAL and re-raises
the error, while a parquet file already written stays (no rollback); when
all steps succeed the WAL entry is marked completed and the write id is
returned. -/
theorem C5_write_path_error_semantics (write_id : String)
    (walAppend : Except String Unit) (parquetWrite : Except String String)
    (registerMeta indexUpdate : Except String Unit) :
    (∀ e, walAppend = .ok () → parquetWrite = .error e →
      write_data write_id walAppend parquetWrite registerMeta indexUpdate =
        ⟨[.entry write_id "write" "pending",
          .statusUpdate write_id "failed" (some e)], [], .error e⟩) ∧
    (∀ path e, walAppend = .ok () → parquetWrite = .ok path →
      registerMeta = .error e →
      write_data write_id walAppend parquetWrite registerMeta indexUpdate =
        ⟨[.entry write_id "write" "pending",
          .statusUpdate write_id "failed" (some e)], [path], .error e⟩) ∧
    (∀ path e, walAppend = .ok () → parquetWrite = .ok path →
      registerMeta = .ok () → indexUpdate = .error e →
      write_data write_id walAppend parquetWrite registerMeta indexUpdate =
        ⟨[.entry write_id "write" "pending",
          .statusUpdate write_id "failed" (some e)], [path], .error e⟩) ∧
    (∀ path, walAppend = .ok () → parquetWrite = .ok path →
      registerMeta = .ok () → indexUpdate = .ok () →
      write_data write_id walAppend parquetWrite registerMeta indexUpdate =
        ⟨[.entry write_id "write" "pending",
          .statusUpdate write_id "completed" none], [path], .ok write_id⟩) := by
  refine ⟨?_, ?_, ?_, ?_⟩
  · intro e h1 h2; subst h1; subst h2; rfl
  · intro path e h1 h2 h3; subst h1; subst h2; subst h3; rfl
  · intro path e h1 h2 h3 h4; subst h1; subst h2; subst h3; subst h4; rfl
  · intro path h1 h2 h3 h4; subst h1; subst h2; subst h3; subst h4; rfl

/-- Witness for C5: write id "w1" with a successful parquet write of
"f.parquet" and a metadata-registration failure "disk full" — the WAL ends
failed with that message, the error is re-raised, and the file stays. -/
theorem C5_write_path_witness :
    write_data "w1" (.ok ()) (.ok "f.parquet") (.error "disk full") (.ok ()) =
      ⟨[.entry "w1" "write" "pending",
        .statusUpdate "w1" "failed" (some "disk full")],
        ["f.parquet"], .error "disk full"⟩ :=
  (C5_write_path_error_semantics "w1" (.ok ()) (.ok "f.parquet")
      (.error "disk full") (.ok ())).2.1 "f.parquet" "disk full" rfl rfl rfl

theorem wal_append_no_flush {E : Type} (size : List E → ℕ) (maxSize : ℕ) :
    ∀ (es : List E) (st : EngineWalState E),
      st.buffer.length + es.length < ENTRIES_BEFORE_FLUSH →
      es.foldl (wal_append size maxSize) st =
        { st with buffer := st.buffer ++ es } := by
  intro es
  induction es with
  | nil => intro st _; simp
  | cons e es ih =>
    intro st h
    simp only [List.length_cons] at h
    simp only [List.foldl_cons]
    have hlen : ¬ ENTRIES_BEFORE_FLUSH ≤ st.buffer.length + 1 := by omega
    have hstep : wal_append size maxSize st e =
        { st with buffer := st.buffer ++ [e] } := by
      simp [wal_append, hlen]
    rw [hstep]
    rw [ih { st with buffer := st.buffer ++ [e] }
      (by simp only [List.length_append, List.length_cons, List.length_nil]
          omega)]
    simp

/-- C6: starting from a fresh engine WAL, appending 49 entries triggers no
flush — all 49 stay buffered and nothing reaches the active segment — and
appending a 50th entry flushes all 50 buffered entries to the active
segment at once (`ENTRIES_BEFORE_FLUSH = 50`). -/
theorem C6_flush_threshold {E : Type} (size : List E → ℕ) (maxSize : ℕ)
    (es : List E) (e : E) (h : es.length = 49) :
    (es.foldl (wal_append size maxSize) (initialEngineWal E)).buffer = es ∧
    (es.foldl (wal_append size maxSize) (initialEngineWal E)).activeSegment = [] ∧
    (es.foldl (wal_append size maxSize) (initialEngineWal E)).archivedSegments = [] ∧
    (wal_append size maxSize
        (es.foldl (wal_append size maxSize) (initialEngineWal E)) e).buffer = [] ∧
    (wal_append size maxSize
        (es.foldl (wal_append size maxSize) (initialEngineWal E)) e).activeSegment =
      es ++ [e] := by
  have h49 : es.foldl (wal_append size maxSize) (initialEngineWal E) =
      ⟨es, [], [], false, 0⟩ := by
    rw [wal_append_no_flush size maxSize es (initialEngineWal E)
      (by simp [initialEngineWal, h, ENTRIES_BEFORE_FLUSH])]
    simp [initialEngineWal]
  rw [h49]
  refine ⟨rfl, rfl, rfl, ?_, ?_⟩ <;>
    simp [wal_append, flush_locked, ENTRIES_BEFORE_FLUSH, h]

/-- Witness for C6 with 49 concrete entries (and a 50th) over natural
number payloads. -/
theorem C6_flush_threshold_witness :
    ((List.replicate 49 (0 : ℕ)).foldl
        (wal_append List.length 5242880) (initialEngineWal ℕ)).buffer =
      List.replicate 49 0 ∧
    ((List.replicate 49 (0 : ℕ)).foldl
        (wal_append List.length 5242880) (initialEngineWal ℕ)).activeSegment = [] ∧
    ((List.replicate 49 (0 : ℕ)).foldl
        (wal_append List.length 5242880) (initialEngineWal ℕ)).archivedSegments = [] ∧
    (wal_append List.length 5242880
        ((List.replicate 49 (0 : ℕ)).foldl
          (wal_append List.length 5242880) (initialEngineWal ℕ)) 1).buffer = [] ∧
    (wal_append List.length 5242880
        ((List.replicate 49 (0 : ℕ)).foldl
          (wal_append List.length 5242880) (initialEngineWal ℕ)) 1).activeSegment =
      List.replicate 49 0 ++ [1] :=
  C6_flush_threshold List.length 5242880 (List.replicate 49 0) 1 (by decide)

/-- C7: (bounds) for any policy with `min_workers ≤ max_workers`, a
scale-up factor of at least 1 and a scale-down factor of at most 1 (the
defaults are 1.5 and 0.7), `_scale_up` and `_scale_down` keep a worker
count that starts inside [min_workers, max_workers] inside that interval;
(hysteresis) after a scale-up recorded at time `t1`, a second scale-up
trigger evaluated within the scale-up cooldown window performs no scaling
action at all — the state is returned unchanged. -/
theorem C7_scaler_bounds_and_hysteresis :
    (∀ (policy : ScalingPolicy) (st : AutoScalerState) (now : ℕ),
      policy.min_workers ≤ policy.max_workers →
      1 ≤ policy.scale_up_factor →
      policy.scale_down_factor ≤ 1 →
      policy.min_workers ≤ st.current_workers →
      st.current_workers ≤ policy.max_workers →
      (policy.min_workers ≤ (scale_up policy st now).current_workers ∧
        (scale_up policy st now).current_workers ≤ policy.max_workers) ∧
      (policy.min_workers ≤ (scale_down policy st now).current_workers ∧
        (scale_down policy st now).current_workers ≤ policy.max_workers)) ∧
    (∀ (policy : ScalingPolicy) (st1 : AutoScalerState) (t1 t2 : ℕ),
      st1.last_scale_up = some t1 → t1 ≤ t2 →
      t2 - t1 ≤ policy.scale_up_cooldown → policy.scale_up_cooldown < 86400 →
      shouldScaleUp policy st1.metrics_history = true →
      evaluate_scaling policy st1 t2 = st1) := by
  constructor
  · intro policy st now hmm hfu hfd hlo hhi
    constructor
    · unfold scale_up
      by_cases hcap : policy.max_workers ≤ st.current_workers
      · rw [if_pos hcap]
        exact ⟨hlo, hhi⟩
      · rw [if_neg hcap]
        refine ⟨?_, ?_⟩
        · simp only
          refine le_min ?_ hmm
          refine le_trans hlo (Nat.le_floor ?_)
          calc (st.current_workers : ℚ)
              = st.current_workers * 1 := by ring
            _ ≤ st.current_workers * policy.scale_up_factor :=
              mul_le_mul_of_nonneg_left hfu (by positivity)
        · exact min_le_right _ _
    · unfold scale_down
      by_cases hflr : st.current_workers ≤ policy.min_workers
      · rw [if_pos hflr]
        exact ⟨hlo, hhi⟩
      · rw [if_neg hflr]
        refine ⟨le_max_right _ _, ?_⟩
        simp only
        refine max_le ?_ hmm
        have hle : (st.current_workers : ℚ) * policy.scale_down_factor ≤
            (st.current_workers : ℚ) :=
          mul_le_of_le_one_right (by positivity) hfd
        calc ⌊(st.current_workers : ℚ) * policy.scale_down_factor⌋₊
            ≤ ⌊(st.current_workers : ℚ)⌋₊ := Nat.floor_mono hle
          _ = st.current_workers := Nat.floor_natCast _
          _ ≤ policy.max_workers := hhi
  · intro policy st1 t1 t2 hlast hle hwin hday hshould
    unfold evaluate_scaling
    by_cases hbail :
        (st1.scaling_in_progress || decide (st1.metrics_history.length < 3)) = true
    · rw [if_pos hbail]
    · rw [if_neg hbail, if_pos hshould, hlast]
      have hmod : tdSeconds t2 t1 = t2 - t1 :=
        Nat.mod_eq_of_lt (lt_of_le_of_lt hwin hday)
      show (if policy.scale_up_cooldown < tdSeconds t2 t1
        then scale_up policy st1 t2 else st1) = st1
      rw [if_neg (by rw [hmod]; exact not_lt.mpr hwin)]

/-- Witness for C7: the default policy at 10 workers stays within [2, 100]
under both actions; a scaler that scaled up at t = 1000 and sees the
scale-up trigger again at t = 1200 (within the 300 s cooldown) does
nothing. -/
theorem C7_scaler_witness :
    ((defaultScalingPolicy.min_workers ≤
        (scale_up defaultScalingPolicy ⟨[], 10, none, none, false⟩ 0).current_workers ∧
      (scale_up defaultScalingPolicy ⟨[], 10, none, none, false⟩ 0).current_workers ≤
        defaultScalingPolicy.max_workers) ∧
      (defaultScalingPolicy.min_workers ≤
        (scale_down defaultScalingPolicy ⟨[], 10, none, none, false⟩ 0).current_workers ∧
      (scale_down defaultScalingPolicy ⟨[], 10, none, none, false⟩ 0).current_workers ≤
        defaultScalingPolicy.max_workers)) ∧
    evaluate_scaling defaultScalingPolicy
        ⟨[hotMetrics, hotMetrics, hotMetrics], 15, some 1000, none, false⟩ 1200 =
      ⟨[hotMetrics, hotMetrics, hotMetrics], 15, some 1000, none, false⟩ :=
  ⟨C7_scaler_bounds_and_hysteresis.1 defaultScalingPolicy
      ⟨[], 10, none, none, false⟩ 0 (by decide) (by norm_num [defaultScalingPolicy])
      (by norm_num [defaultScalingPolicy]) (by decide) (by decide),
    C7_scaler_bounds_and_hysteresis.2 defaultScalingPolicy
      ⟨[hotMetrics, hotMetrics, hotMetrics], 15, some 1000, none, false⟩ 1000 1200
      rfl (by decide) (by decide) (by decide)
      (by norm_num [shouldScaleUp, recentMetrics, hotMetrics, defaultScalingPolicy,
        List.sum_cons])⟩

theorem filterMap_eq_map_of_forall {α β : Type} (f : α → Option β) (g : α → β) :
    ∀ l : List α, (∀ x ∈ l, f x = some (g x)) → l.filterMap f = l.map g := by
  intro l
  induction l with
  | nil => intro _; rfl
  | cons x xs ih =>
    intro h
    rw [List.filterMap_cons, h x (by simp), List.map_cons,
      ih (fun y hy => h y (List.mem_cons_of_mem _ hy))]

theorem moveAll_spec (date : String) :
    ∀ (names : List String) (f : Loc → Option ℕ) (cnt : String → ℕ),
      names.Nodup →
      (∀ n ∈ names, f (.data n) = some (cnt n)) →
      (∀ n ∈ names, moveAll date names f (.backup date n) = some (cnt n) ∧
        moveAll date names f (.data n) = none) ∧
      (∀ l : Loc, (∀ n ∈ names, l ≠ .data n ∧ l ≠ .backup date n) →
        moveAll date names f l = f l) := by
  intro names
  induction names with
  | nil => exact fun f cnt _ _ => ⟨by simp, fun l _ => rfl⟩
  | cons n rest ih =>
    intro f cnt hnd hf
    have hnmem : n ∉ rest := (List.nodup_cons.mp hnd).1
    have hstep : moveAll date (n :: rest) f =
        moveAll date rest
          (fun l =>
            if l = .backup date n then some (cnt n)
            else if l = .data n then none
            else f l) := by
      have h0 : moveAll date (n :: rest) f =
          match f (.data n) with
          | some c =>
            moveAll date rest
              (fun l =>
                if l = .backup date n then some c
                else if l = .data n then none
                else f l)
          | none => f := rfl
      rw [h0, hf n (by simp)]
    obtain ⟨ihm, ihu⟩ := ih
      (fun l =>
        if l = .backup date n then some (cnt n)
        else if l = .data n then none
        else f l)
      cnt (List.nodup_cons.mp hnd).2
      (by
        intro m hm
        have hmn : m ≠ n := fun he => hnmem (by rw [← he]; exact hm)
        simp only
        rw [if_neg (by simp), if_neg (by simp [hmn]), hf m (List.mem_cons_of_mem _ hm)])
    rw [hstep]
    constructor
    · intro m hm
      rcases List.mem_cons.mp hm with hm | hm
      · subst hm
        constructor
        · rw [ihu (.backup date m)
            (by
              intro k hk
              have hkm : m ≠ k := fun he => hnmem (by rw [he]; exact hk)
              exact ⟨by simp, by simp [hkm]⟩)]
          simp
        · rw [ihu (.data m)
            (by
              intro k hk
              have hkm : m ≠ k := fun he => hnmem (by rw [he]; exact hk)
              exact ⟨by simp [hkm], by simp⟩)]
          simp
      · exact ihm m hm
    · intro l hl
      rw [ihu l (fun k hk => hl k (List.mem_cons_of_mem _ hk))]
      obtain ⟨hd, hb⟩ := hl n (by simp)
      rw [if_neg hb, if_neg hd]

/-- C3 counterexample: compacting the two readable files "a" (2 rows) and
"b" (3 rows) produces one output file with 5 rows and moves both originals
into the dated backup directory — but the catalog and index references are
exactly as before (still listing "a" and "b"), because neither
`_compact_files` nor `_cleanup_original_files` contains any catalog or
index call.  The claim that the job recomputes catalog/index entries so
the originals are no longer referenced is therefore false. -/
theorem C3_compaction_keeps_catalog_index_refs :
    (compact_files compactExampleFs ["a", "b"] "20261012" "out").map
        (fun fs => fs.catalogRefs) = .ok ["a", "b"] ∧
    (compact_files compactExampleFs ["a", "b"] "20261012" "out").map
        (fun fs => fs.indexRefs) = .ok ["a", "b"] ∧
    (compact_files compactExampleFs ["a", "b"] "20261012" "out").map
        (fun fs => fs.files (.data "out")) = .ok (some 5) ∧
    (compact_files compactExampleFs ["a", "b"] "20261012" "out").map
        (fun fs => fs.files (.backup "20261012" "a")) = .ok (some 2) ∧
    (compact_files compactExampleFs ["a", "b"] "20261012" "out").map
        (fun fs => fs.files (.backup "20261012" "b")) = .ok (some 3) ∧
    "a" ∈ compactExampleFs.catalogRefs :=
  ⟨rfl, rfl, rfl, rfl, rfl, by decide⟩

/-- C3 (amended): a compaction job over N ≥ 2 readable input files with R
total rows writes exactly one output file with exactly R rows and moves
all N originals (not deletes: their row payload is preserved) into the
dated backup directory; however the job performs no catalog or index
update — both reference lists pass through unchanged, so the originals
remain referenced until some external mechanism updates them. -/
theorem C3_compaction_rows_and_backup (fs : CompactionFs)
    (group : List String) (date outName : String) (cnt : String → ℕ)
    (hnd : group.Nodup) (hlen : 2 ≤ group.length)
    (hcnt : ∀ n ∈ group, fs.files (.data n) = some (cnt n))
    (hout : ∀ n ∈ group, outName ≠ n) :
    ∃ fs', compact_files fs group date outName = .ok fs' ∧
      fs'.files (.data outName) = some ((group.map cnt).sum) ∧
      (∀ n ∈ group, fs'.files (.backup date n) = some (cnt n) ∧
        fs'.files (.data n) = none) ∧
      fs'.catalogRefs = fs.catalogRefs ∧ fs'.indexRefs = fs.indexRefs := by
  have hfm : group.filterMap (fun n => fs.files (.data n)) = group.map cnt :=
    filterMap_eq_map_of_forall _ _ group hcnt
  have hgne : group ≠ [] := by
    intro h
    rw [h] at hlen
    simp at hlen
  have hne : ¬ ((group.map cnt).isEmpty = true) := by
    simpa [List.isEmpty_iff] using hgne
  have hcf : compact_files fs group date outName =
      .ok ⟨moveAll date group
            (fun l =>
              if l = .data outName then some ((group.map cnt).sum)
              else fs.files l),
          fs.catalogRefs, fs.indexRefs⟩ := by
    unfold compact_files
    rw [hfm, if_neg hne]
  have hf1 : ∀ n ∈ group,
      (fun l =>
        if l = .data outName then some ((group.map cnt).sum)
        else fs.files l) (.data n) = some (cnt n) := by
    intro n hn
    simp only
    have hne2 : ¬ (Loc.data n = Loc.data outName) := by
      intro he
      injection he with h
      exact hout n hn h.symm
    rw [if_neg hne2, hcnt n hn]
  obtain ⟨hmoves, huntouched⟩ := moveAll_spec date group
    (fun l =>
      if l = .data outName then some ((group.map cnt).sum)
      else fs.files l) cnt hnd hf1
  refine ⟨_, hcf, ?_, hmoves, rfl, rfl⟩
  show moveAll date group
      (fun l =>
        if l = .data outName then some ((group.map cnt).sum)
        else fs.files l) (.data outName) = some ((group.map cnt).sum)
  rw [huntouched (.data outName)
    (by
      intro n hn
      have hne3 : ¬ (Loc.data outName = Loc.data n) := by
        intro he
        injection he with h
        exact hout n hn h
      exact ⟨hne3, by simp⟩)]
  simp

/-- Witness for C3: the concrete two-file scenario (2 + 3 rows) compacted
into "out" on date "20261012". -/
theorem C3_compaction_rows_witness :
    ∃ fs', compact_files compactExampleFs ["a", "b"] "20261012" "out" = .ok fs' ∧
      fs'.files (.data "out") =
        some ((["a", "b"].map
          (fun n => if n = "a" then 2 else 3)).sum) ∧
      (∀ n ∈ ["a", "b"], fs'.files (.backup "20261012" n) =
          some (if n = "a" then 2 else 3) ∧
        fs'.files (.data n) = none) ∧
      fs'.catalogRefs = compactExampleFs.catalogRefs ∧
      fs'.indexRefs = compactExampleFs.indexRefs :=
  C3_compaction_rows_and_backup compactExampleFs ["a", "b"] "20261012" "out"
    (fun n => if n = "a" then 2 else 3) (by decide) (by decide)
    (by decide) (by decide)

theorem migrateStep_eligible {cutoff : ℤ} {hot cold : String → Bool}
    {cat : List (String × CatalogMeta)} {moved : ℕ} {pm : String × CatalogMeta}
    (h : eligibleB cutoff hot pm = true) :
    migrateStep cutoff (cat, hot, cold, moved) pm =
      (cat ++ [flipCold pm],
       fun q => if q = pm.1 then false else hot q,
       fun q => if q = pm.1 then true else cold q,
       moved + 1) := by
  unfold eligibleB at h
  simp only [Bool.and_eq_true, beq_iff_eq] at h
  obtain ⟨⟨hloc, hts⟩, hhot⟩ := h
  cases hmt : pm.2.max_ts with
  | none => rw [hmt] at hts; simp at hts
  | some ts =>
    rw [hmt] at hts
    have hlt : ts < cutoff := by simpa using hts
    unfold migrateStep
    simp [hloc, hmt, hlt, hhot]

theorem migrateStep_not_eligible {cutoff : ℤ} {hot cold : String → Bool}
    {cat : List (String × CatalogMeta)} {moved : ℕ} {pm : String × CatalogMeta}
    (h : eligibleB cutoff hot pm = false) :
    migrateStep cutoff (cat, hot, cold, moved) pm =
      (cat ++ [pm], hot, cold, moved) := by
  unfold eligibleB at h
  unfold migrateStep
  by_cases hloc : pm.2.location = "hot"
  · simp only [hloc] at h
    cases hmt : pm.2.max_ts with
    | none => simp [hloc, hmt]
    | some ts =>
      rw [hmt] at h
      simp only [beq_self_eq_true, Bool.true_and] at h
      by_cases hlt : ts < cutoff
      · simp only [hlt, decide_True, Bool.true_and] at h
        simp [hloc, hmt, hlt, h]
      · simp [hloc, hmt, hlt]
  · simp [hloc]

theorem migrate_fold (cutoff : ℤ) :
    ∀ (entries : List (String × CatalogMeta))
      (cat : List (String × CatalogMeta)) (hot cold : String → Bool) (moved : ℕ),
      (entries.map Prod.fst).Nodup →
      entries.foldl (migrateStep cutoff) (cat, hot, cold, moved) =
        (cat ++ entries.map
            (fun pm => if eligibleB cutoff hot pm then flipCold pm else pm),
         fun q =>
           if q ∈ (entries.filter (eligibleB cutoff hot)).map Prod.fst then false
           else hot q,
         fun q =>
           if q ∈ (entries.filter (eligibleB cutoff hot)).map Prod.fst then true
           else cold q,
         moved + (entries.filter (eligibleB cutoff hot)).length) := by
  intro entries
  induction entries with
  | nil =>
    intro cat hot cold moved _
    simp
  | cons pm rest ih =>
    intro cat hot cold moved hnd
    rw [List.map_cons, List.nodup_cons] at hnd
    obtain ⟨hnotin, hnd'⟩ := hnd
    simp only [List.foldl_cons]
    have hsame : ∀ pm' ∈ rest,
        eligibleB cutoff (fun q => if q = pm.1 then false else hot q) pm' =
          eligibleB cutoff hot pm' := by
      intro pm' hm
      have hne : pm'.1 ≠ pm.1 :=
        fun he => hnotin (he ▸ List.mem_map_of_mem Prod.fst hm)
      simp [eligibleB, hne]
    by_cases helig : eligibleB cutoff hot pm = true
    · rw [migrateStep_eligible helig]
      rw [ih (cat ++ [flipCold pm]) (fun q => if q = pm.1 then false else hot q)
        (fun q => if q = pm.1 then true else cold q) (moved + 1) hnd']
      have hfilt : rest.filter
            (eligibleB cutoff (fun q => if q = pm.1 then false else hot q)) =
          rest.filter (eligibleB cutoff hot) := List.filter_congr hsame
      have hmap : rest.map (fun pm' =>
            if eligibleB cutoff (fun q => if q = pm.1 then false else hot q) pm'
            then flipCold pm' else pm') =
          rest.map (fun pm' =>
            if eligibleB cutoff hot pm' then flipCold pm' else pm') := by
        apply List.map_congr_left
        intro x hx
        rw [hsame x hx]
      refine Prod.ext ?_ (Prod.ext ?_ (Prod.ext ?_ ?_))
      · rw [hmap]
        simp [helig]
      · funext q
        rw [hfilt]
        simp only [List.filter_cons, helig, if_true, List.map_cons,
          List.mem_cons]
        by_cases hq : q = pm.1 <;> simp [hq]
      · funext q
        rw [hfilt]
        simp only [List.filter_cons, helig, if_true, List.map_cons,
          List.mem_cons]
        by_cases hq : q = pm.1 <;> simp [hq]
      · rw [hfilt]
        simp only [List.filter_cons, helig, if_true, List.length_cons]
        omega
    · have helig' : eligibleB cutoff hot pm = false :=
        Bool.eq_false_iff.mpr helig
      rw [migrateStep_not_eligible helig']
      rw [ih (cat ++ [pm]) hot cold moved hnd']
      have hfc : (pm :: rest).filter (eligibleB cutoff hot) =
          rest.filter (eligibleB cutoff hot) := by
        simp [List.filter_cons, helig']
      rw [hfc]
      exact Prod.ext (by simp [helig']) rfl

/-- C8: `migrate_to_cold_storage(cutoff_days)` moves exactly the catalog
entries that are in the hot tier, have a parsable max timestamp older than
now minus `cutoff_days` days, and whose file exists in the hot tier:
the returned count is the number of such entries, each of them is flipped
to cold in the returned catalog while every other entry is unchanged, each
moved file leaves the hot tier and appears in the cold tier, and paths
not belonging to a moved entry keep their hot/cold placement.  Entries
with an unparsable timestamp or a missing hot file are skipped without
failing the batch. -/
theorem C8_migrate_cold_semantics (st : MigrationState) (now cutoff_days : ℤ)
    (hnd : (st.catalog.map Prod.fst).Nodup) :
    (migrate_to_cold_storage st now cutoff_days).2 =
      (st.catalog.filter
        (eligibleB (now - cutoff_days * 86400) st.hot)).length ∧
    (migrate_to_cold_storage st now cutoff_days).1.catalog =
      st.catalog.map (fun pm =>
        if eligibleB (now - cutoff_days * 86400) st.hot pm then flipCold pm
        else pm) ∧
    (∀ pm ∈ st.catalog,
      eligibleB (now - cutoff_days * 86400) st.hot pm = true →
      (migrate_to_cold_storage st now cutoff_days).1.hot pm.1 = false ∧
      (migrate_to_cold_storage st now cutoff_days).1.cold pm.1 = true) ∧
    (∀ q, q ∉ (st.catalog.filter
        (eligibleB (now - cutoff_days * 86400) st.hot)).map Prod.fst →
      (migrate_to_cold_storage st now cutoff_days).1.hot q = st.hot q ∧
      (migrate_to_cold_storage st now cutoff_days).1.cold q = st.cold q) := by
  have hf := migrate_fold (now - cutoff_days * 86400) st.catalog [] st.hot
    st.cold 0 hnd
  simp only [migrate_to_cold_storage]
  rw [hf]
  refine ⟨by simp, by simp, ?_, ?_⟩
  · intro pm hm he
    have hmem : pm.1 ∈ (st.catalog.filter
        (eligibleB (now - cutoff_days * 86400) st.hot)).map Prod.fst :=
      List.mem_map_of_mem Prod.fst (List.mem_filter.mpr ⟨hm, he⟩)
    exact ⟨by simp [hmem], by simp [hmem]⟩
  · intro q hq
    exact ⟨by simp [hq], by simp [hq]⟩

/-- Witness for C8 on the concrete scenario: with now = 1000000 s and a
1-day cutoff, only "old.parquet" (hot, timestamp 0) is eligible; the
too-recent, already-cold and unparsable entries are skipped. -/
theorem C8_migrate_cold_witness :
    (migrate_to_cold_storage migrateExample 1000000 1).2 =
      (migrateExample.catalog.filter
        (eligibleB (1000000 - 1 * 86400) migrateExample.hot)).length ∧
    (migrate_to_cold_storage migrateExample 1000000 1).1.catalog =
      migrateExample.catalog.map (fun pm =>
        if eligibleB (1000000 - 1 * 86400) migrateExample.hot pm then flipCold pm
        else pm) ∧
    (∀ pm ∈ migrateExample.catalog,
      eligibleB (1000000 - 1 * 86400) migrateExample.hot pm = true →
      (migrate_to_cold_storage migrateExample 1000000 1).1.hot pm.1 = false ∧
      (migrate_to_cold_storage migrateExample 1000000 1).1.cold pm.1 = true) ∧
    (∀ q, q ∉ (migrateExample.catalog.filter
        (eligibleB (1000000 - 1 * 86400) migrateExample.hot)).map Prod.fst →
      (migrate_to_cold_storage migrateExample 1000000 1).1.hot q =
        migrateExample.hot q ∧
      (migrate_to_cold_storage migrateExample 1000000 1).1.cold q =
        migrateExample.cold q) :=
  C8_migrate_cold_semantics migrateExample 1000000 1 (by decide)

end StorageSystem
